import Mathlib

/-!
Shallow embedding of the streaming-diagnosis client
(`src/app/c/[id]/page.tsx` and `src/app/chat/page.tsx`): the incremental
JSON extractor, the tag (reasoning) extractor, the trade field sniffer,
the per-turn stream reducer, and the attachment / location side workflows.
Strings are modelled as `List Char`; JavaScript's `JSON.parse` is modelled
by an executable recursive-descent parser returning `Except` (an `.error`
models a thrown exception).
-/

namespace HomeServices

/-- JSON values as produced by `JSON.parse`.  Numeric literals keep their
lexeme so no floating-point semantics is needed (no claim depends on
numeric values).  Object fields keep source order; duplicate keys are
resolved at access time (last one wins), matching JavaScript. -/
inductive Json where
  | null
  | bool (b : Bool)
  | num (lexeme : String)
  | str (s : String)
  | arr (elems : List Json)
  | obj (fields : List (String × Json))
deriving Repr

/-- JSON whitespace characters (RFC 8259: space, tab, LF, CR). -/
def isJsonWs (c : Char) : Bool :=
  c = ' ' || c = '\t' || c = '\n' || c = '\r'

/-- Drop leading JSON whitespace. -/
def skipWs (s : List Char) : List Char := s.dropWhile isJsonWs

/-- Hexadecimal digit value, for `\uXXXX` escapes. -/
def hexVal (c : Char) : Option Nat :=
  if '0' ≤ c ∧ c ≤ '9' then some (c.toNat - '0'.toNat)
  else if 'a' ≤ c ∧ c ≤ 'f' then some (c.toNat - 'a'.toNat + 10)
  else if 'A' ≤ c ∧ c ≤ 'F' then some (c.toNat - 'A'.toNat + 10)
  else none

/-- Parse the body of a JSON string after the opening quote: returns the
decoded characters and the input after the closing quote.  Mirrors
`JSON.parse`'s string lexer: standard escapes, `\uXXXX`, and rejection of
raw control characters. -/
def parseStringRest : List Char → Option (List Char × List Char)
  | [] => none
  | '"' :: rest => some ([], rest)
  | '\\' :: 'u' :: h1 :: h2 :: h3 :: h4 :: rest =>
    match hexVal h1, hexVal h2, hexVal h3, hexVal h4 with
    | some a, some b, some c, some d =>
      match parseStringRest rest with
      | some (cs, r) => some (Char.ofNat (((a * 16 + b) * 16 + c) * 16 + d) :: cs, r)
      | none => none
    | _, _, _, _ => none
  | '\\' :: e :: rest =>
    match
      (match e with
       | '"' => some '"'
       | '\\' => some '\\'
       | '/' => some '/'
       | 'b' => some (Char.ofNat 8)
       | 'f' => some (Char.ofNat 12)
       | 'n' => some '\n'
       | 'r' => some '\r'
       | 't' => some '\t'
       | _ => none) with
    | some decoded =>
      match parseStringRest rest with
      | some (cs, r) => some (decoded :: cs, r)
      | none => none
    | none => none
  | c :: rest =>
    if c.toNat < 32 then none
    else
      match parseStringRest rest with
      | some (cs, r) => some (c :: cs, r)
      | none => none

/-- Parse a JSON number starting at the current position, returning its
lexeme (grammar `-? (0 | [1-9][0-9]*) (. [0-9]+)? ([eE][+-]?[0-9]+)?`). -/
def parseNumber (s : List Char) : Option (Json × List Char) :=
  let (sign, s1) : List Char × List Char :=
    match s with
    | '-' :: r => (['-'], r)
    | _ => ([], s)
  let intRes : Option (List Char × List Char) :=
    match s1 with
    | '0' :: r => some (['0'], r)
    | c :: r =>
      if '1' ≤ c ∧ c ≤ '9' then
        some (c :: r.takeWhile Char.isDigit, r.dropWhile Char.isDigit)
      else none
    | [] => none
  match intRes with
  | none => none
  | some (intPart, s2) =>
    let fracRes : Option (List Char × List Char) :=
      match s2 with
      | '.' :: r =>
        let ds := r.takeWhile Char.isDigit
        if ds = [] then none else some ('.' :: ds, r.dropWhile Char.isDigit)
      | _ => some ([], s2)
    match fracRes with
    | none => none
    | some (fracPart, s3) =>
      let expRes : Option (List Char × List Char) :=
        match s3 with
        | e :: r =>
          if e = 'e' ∨ e = 'E' then
            let (es, r1) : List Char × List Char :=
              match r with
              | '+' :: r2 => (['+'], r2)
              | '-' :: r2 => (['-'], r2)
              | _ => ([], r)
            let ds := r1.takeWhile Char.isDigit
            if ds = [] then none
            else some (e :: (es ++ ds), r1.dropWhile Char.isDigit)
          else some ([], s3)
        | [] => some ([], s3)
      match expRes with
      | none => none
      | some (expPart, s4) =>
        some (Json.num (String.mk (sign ++ intPart ++ fracPart ++ expPart)), s4)

mutual

/-- Fuel-indexed JSON value parser (fuel bounds nesting work; callers pass
`input.length + 1`, which is always sufficient since every recursive call
consumes at least one character first). -/
def parseValue : Nat → List Char → Option (Json × List Char)
  | 0, _ => none
  | fuel + 1, s =>
    match skipWs s with
    | [] => none
    | 'n' :: rest =>
      if rest.take 3 = ['u', 'l', 'l'] then some (Json.null, rest.drop 3) else none
    | 't' :: rest =>
      if rest.take 3 = ['r', 'u', 'e'] then some (Json.bool true, rest.drop 3) else none
    | 'f' :: rest =>
      if rest.take 4 = ['a', 'l', 's', 'e'] then some (Json.bool false, rest.drop 4) else none
    | '"' :: rest =>
      match parseStringRest rest with
      | some (cs, r) => some (Json.str (String.mk cs), r)
      | none => none
    | '\x7b' :: rest =>
      (match skipWs rest with
       | '\x7d' :: r => some (Json.obj [], r)
       | other => parseMembers fuel other [])
    | '[' :: rest =>
      (match skipWs rest with
       | ']' :: r => some (Json.arr [], r)
       | other => parseElems fuel other [])
    | c :: rest =>
      if c = '-' ∨ c.isDigit then parseNumber (c :: rest) else none

/-- Parse the members of a JSON object after `{` (first member pending). -/
def parseMembers : Nat → List Char → List (String × Json) → Option (Json × List Char)
  | 0, _, _ => none
  | fuel + 1, s, acc =>
    match skipWs s with
    | '"' :: rest =>
      match parseStringRest rest with
      | none => none
      | some (key, r1) =>
        match skipWs r1 with
        | ':' :: r2 =>
          match parseValue fuel r2 with
          | none => none
          | some (v, r3) =>
            match skipWs r3 with
            | ',' :: r4 => parseMembers fuel r4 (acc ++ [(String.mk key, v)])
            | '\x7d' :: r4 => some (Json.obj (acc ++ [(String.mk key, v)]), r4)
            | _ => none
        | _ => none
    | _ => none

/-- Parse the elements of a JSON array after `[` (first element pending). -/
def parseElems : Nat → List Char → List Json → Option (Json × List Char)
  | 0, _, _ => none
  | fuel + 1, s, acc =>
    match parseValue fuel s with
    | none => none
    | some (v, r1) =>
      match skipWs r1 with
      | ',' :: r2 => parseElems fuel r2 (acc ++ [v])
      | ']' :: r2 => some (Json.arr (acc ++ [v]), r2)
      | _ => none

end

/-- Model of `JSON.parse`: `.error` models a thrown `SyntaxError`. -/
def jsonParseE (s : String) : Except String Json :=
  match parseValue (s.data.length + 1) s.data with
  | some (j, rest) =>
    if skipWs rest = [] then Except.ok j else Except.error "Unexpected token"
  | none => Except.error "Unexpected end of JSON input"

example : jsonParseE "\x7b\"diagnosis\":\"Leak\"\x7d" =
    Except.ok (Json.obj [("diagnosis", Json.str "Leak")]) := by rfl

example : jsonParseE " \x7b \"a\" : [1, true, null, \"x\"] \x7d " =
    Except.ok (Json.obj [("a", Json.arr [Json.num "1", Json.bool true, Json.null, Json.str "x"])]) := by
  rfl

example : (jsonParseE "\x7b\"a\":").isOk = false := by rfl

example : (jsonParseE "\x7b\"a\":1,\x7d").isOk = false := by rfl

/-! String-search utilities modelling the JavaScript string/regex
operations used by the pages. -/

/-- JavaScript `\s` / `trim()` whitespace (ASCII part; the streamed
responses contain no exotic Unicode whitespace). -/
def isJsWs (c : Char) : Bool :=
  c = ' ' || c = '\t' || c = '\n' || c = '\r' || c = Char.ofNat 11 || c = Char.ofNat 12

/-- Model of `String.prototype.trim`. -/
def jsTrim (s : List Char) : List Char :=
  ((s.dropWhile isJsWs).reverse.dropWhile isJsWs).reverse

/-- Lowercase a character sequence (model of `toLowerCase` for the ASCII
tags and values compared by the pages). -/
def lowerL (s : List Char) : List Char := s.map Char.toLower

/-- Does `s` start with the pattern `p`? -/
def startsWithL : List Char → List Char → Bool
  | [], _ => true
  | _ :: _, [] => false
  | p :: ps, c :: cs => p = c && startsWithL ps cs

/-- Does `s` end with the pattern `p`? -/
def endsWithL (p : List Char) (s : List Char) : Bool :=
  startsWithL p.reverse s.reverse

/-- First index at which pattern `pat` occurs in `s` (leftmost match of a
regex without wildcards), or `none`. -/
def findSubIdx (pat : List Char) : List Char → Option Nat
  | [] => if pat = [] then some 0 else none
  | c :: t =>
    if startsWithL pat (c :: t) then some 0
    else (findSubIdx pat t).map (· + 1)

/-- Case-insensitive leftmost occurrence of `patLower` (already
lowercased) in `s`; the index is valid in `s` since lowercasing is
length-preserving. -/
def findSubIdxCI (patLower : List Char) (s : List Char) : Option Nat :=
  findSubIdx patLower (lowerL s)

/-- Model of `s.toLowerCase().includes(patLower)`. -/
def containsCI (patLower : List Char) (s : List Char) : Bool :=
  (findSubIdxCI patLower s).isSome

/-- Leftmost occurrence of any of the alternative patterns (all
lowercased), returning its index and the length of the alternative that
matched; alternatives are tried in order at each position, as a regex
alternation does.  Input `sLower` is the lowercased haystack. -/
def findFirstAlt (pats : List (List Char)) : List Char → Option (Nat × Nat)
  | [] => none
  | c :: t =>
    match pats.find? (fun p => startsWithL p (c :: t)) with
    | some p => some (0, p.length)
    | none => (findFirstAlt pats t).map (fun r => (r.1 + 1, r.2))

/-- Model of `buffer.match(/<open>([\s\S]*?)(?:<close>|$)/i)`: the group
runs from just after the leftmost opening tag to the first closing tag
after it, or to end-of-string when the closing tag is absent.  Used with
`<json>`/`</json>`. -/
def matchTagRegion (openLower closeLower : List Char) (s : List Char) : Option (List Char) :=
  match findSubIdxCI openLower s with
  | none => none
  | some i =>
    let rest := s.drop (i + openLower.length)
    match findSubIdxCI closeLower rest with
    | none => some rest
    | some j => some (rest.take j)

/-- Alternative form with a tag alternation on both sides, modelling
`/<(?:thought|thought_process)>([\s\S]*?)(?:<\/(?:thought|thought_process)>|$)/i`. -/
def matchAltTagRegion (opens closes : List (List Char)) (s : List Char) : Option (List Char) :=
  match findFirstAlt opens (lowerL s) with
  | none => none
  | some (i, len) =>
    let rest := s.drop (i + len)
    match findFirstAlt closes (lowerL rest) with
    | none => some rest
    | some (j, _) => some (rest.take j)

/-- Model of the fenced fallback
`buffer.match(/\x60\x60\x60thought\s*([\s\S]*?)(?:\x60\x60\x60|$)/i)`
(backticks written as \x60): after the fence marker the greedy `\s*` eats
the whitespace run, then the lazy group runs to the next fence or to
end-of-string. -/
def matchFencedThought (s : List Char) : Option (List Char) :=
  match findSubIdxCI ("```thought".data) s with
  | none => none
  | some i =>
    let rest := (s.drop (i + 10)).dropWhile isJsWs
    match findSubIdx ("```".data) rest with
    | none => some rest
    | some j => some (rest.take j)

/-- Model of `buffer.match(/\x7b[\s\S]*\x7d/)` (bare-brace greedy
fallback): from the first `{` to the last `}`, when the former precedes
the latter. -/
def bareJsonMatch (s : List Char) : Option (List Char) :=
  match findSubIdx ['\x7b'] s, (findSubIdx ['\x7d'] s.reverse).map (fun k => s.length - 1 - k) with
  | some i, some j => if i < j then some ((s.drop i).take (j - i + 1)) else none
  | _, _ => none

/-- Last index of character `c` in `s` (model of `lastIndexOf`, with
`none` for JavaScript's `-1`). -/
def lastIdxOf (c : Char) : List Char → Option Nat
  | [] => none
  | a :: t =>
    match lastIdxOf c t with
    | some i => some (i + 1)
    | none => if a = c then some 0 else none

example : jsTrim "  ab c\n".data = "ab c".data := by rfl
example : findSubIdx "bc".data "abcbc".data = some 1 := by rfl
example : findSubIdxCI "</json>".data "x</JSON>y".data = some 1 := by rfl
example : matchTagRegion "<json>".data "</json>".data "a<json>B</json>c".data = some ['B'] := by rfl
example : matchTagRegion "<json>".data "</json>".data "a<json>Bc".data = some ['B', 'c'] := by rfl
example : bareJsonMatch "a\x7bx\x7dy\x7dz".data = some "\x7bx\x7dy\x7d".data := by rfl
example : bareJsonMatch "\x7d a \x7b".data = none := by rfl
example : lastIdxOf '\x7d' "a\x7db\x7dc".data = some 3 := by rfl
example : lastIdxOf '\x7d' "abc".data = none := by rfl

/-! JavaScript object access and truthiness, for the parsed payloads. -/

/-- Property access on a parsed object: with duplicate keys the later
binding wins, as in a JavaScript object literal built by `JSON.parse`. -/
def jsGet (fields : List (String × Json)) (key : String) : Option Json :=
  fields.foldl (fun acc kv => if kv.1 = key then some kv.2 else acc) none

/-- Does a number lexeme denote zero (sign and exponent do not affect
zeroness; the mantissa must be all zero digits)? -/
def numLexIsZero (lexeme : String) : Bool :=
  let body := (lexeme.data.filter (fun c => c ≠ '-' ∧ c ≠ '.')).takeWhile (fun c => c ≠ 'e' ∧ c ≠ 'E')
  body.all (fun c => c = '0')

/-- JavaScript truthiness of an optional value (`none` models
`undefined`). -/
def jsTruthy : Option Json → Bool
  | none => false
  | some Json.null => false
  | some (Json.bool b) => b
  | some (Json.str s) => s ≠ ""
  | some (Json.num lexeme) => !numLexIsZero lexeme
  | some (Json.arr _) => true
  | some (Json.obj _) => true

/-- Property access through a parsed value: only objects expose fields
(`undefined` otherwise; the `null.field` throw inside the parse `try` is
observationally the caught-and-skipped case). -/
def jsGetJson (j : Json) (key : String) : Option Json :=
  match j with
  | Json.obj fields => jsGet fields key
  | _ => none

/-- Fields carried by a parsed value when spread (`{...parsedJson}`):
objects contribute their fields, primitives contribute none. -/
def jsonFields : Json → List (String × Json)
  | Json.obj fields => fields
  | _ => []

/-- String coercion used by template literals (only the string case is
exercised by the theorems; the rest is JavaScript's coercion shape). -/
def jsToString : Json → String
  | Json.str s => s
  | Json.num lexeme => lexeme
  | Json.bool b => if b then "true" else "false"
  | Json.null => "null"
  | Json.arr _ => ""
  | Json.obj _ => "[object Object]"

/-- Evaluation of `v || fallback` where the result is consumed as a
string. -/
def jsOrDefault (v : Option Json) (fallback : String) : String :=
  match v with
  | some x => if jsTruthy (some x) then jsToString x else fallback
  | none => fallback

/-! Per-turn state of the initial-diagnosis stream reducer
(`startInitialDiagnosis` in `src/app/c/[id]/page.tsx`). -/

/-- The `DiagnosisData` value held in component state: the `thinking`
text plus the spread fields of the parsed payload. -/
structure DiagnosisData where
  thinking : String
  fields : List (String × Json)
deriving Repr

/-- Observable effects and flags of one turn: the current `diagnosis` UI
state, the log of `saveConversation` / `saveMessage` calls, the log of
`getCurrentLocation` launches (by trade argument), and the
`isSearchTriggered` flag local to the turn. -/
structure TurnState where
  diagnosisUI : Option DiagnosisData
  savedConversations : List DiagnosisData
  savedMessages : List (String × String)
  searchCalls : List String
  isSearchTriggered : Bool
deriving Repr

/-- Turn-start state (`setDiagnosis(null)`, fresh flags, no effects). -/
def initTurnState : TurnState :=
  { diagnosisUI := none
    savedConversations := []
    savedMessages := []
    searchCalls := []
    isSearchTriggered := false }

/-- Markdown-fence cleanup of a JSON fragment:
`jsonText.trim().replace(/^\x60\x60\x60json\s*/i, "").replace(/\x60\x60\x60$/i, "").trim()`. -/
def cleanFragment (jsonText : List Char) : List Char :=
  let t := jsTrim jsonText
  let t := if startsWithL ("```json".data) (lowerL t) then (t.drop 7).dropWhile isJsWs else t
  let t := if endsWithL ("```".data) t then t.take (t.length - 3) else t
  jsTrim t

/-- Trade sniffer at one position: the tail of
`/"trade"\s*:\s*"([^\x22]+)"/i` after the leading `"trade"` matched. -/
def tryTradeAt (s : List Char) : Option (List Char) :=
  if startsWithL ("\"trade\"".data) (lowerL s) then
    match (s.drop 7).dropWhile isJsWs with
    | ':' :: r2 =>
      (match r2.dropWhile isJsWs with
       | '"' :: r4 =>
         let v := r4.takeWhile (fun c => c ≠ '"')
         if v = [] then none
         else
           match r4.dropWhile (fun c => c ≠ '"') with
           | '"' :: _ => some v
           | _ => none
       | _ => none)
    | _ => none
  else none

/-- Model of `cleaned.match(/"trade"\s*:\s*"([^\x22]+)"/i)`: leftmost
position where the whole pattern matches, returning the group. -/
def sniffTrade : List Char → Option (List Char)
  | [] => none
  | c :: t =>
    match tryTradeAt (c :: t) with
    | some v => some v
    | none => sniffTrade t

/-- Last-brace repair (`processJson` lines 412-419): when the fragment is
flagged incomplete and does not end in `}`, hand the parser the fragment
truncated just past its last `}`; a fragment with no `}` is parsed
unmodified. -/
def repairToParse (isComplete : Bool) (cleaned : List Char) : List Char :=
  if !isComplete && !endsWithL ['\x7d'] cleaned then
    match lastIdxOf '\x7d' cleaned with
    | some lastBrace => cleaned.take (lastBrace + 1)
    | none => cleaned
  else cleaned

/-- Early-trade-detection prefix of `processJson`: when the turn has not
yet triggered the search, sniff the trade and launch
`getCurrentLocation` at most once. -/
def earlyTradeStep (cleaned : List Char) (st : TurnState) : TurnState :=
  if !st.isSearchTriggered then
    match sniffTrade cleaned with
    | some v =>
      { st with
        isSearchTriggered := true
        searchCalls := st.searchCalls ++ [String.mk v] }
    | none => st
  else st

/-- Parse-and-accept body of `processJson`'s `try` block: strict-parse
the repaired fragment (a parse failure is a thrown exception, modelled by
`Except.error`), and when the parsed value has a truthy `diagnosis`
install it as the current diagnosis and, on a complete snapshot, persist
the conversation and the rendered assistant message. -/
def parseAndAccept (thinking : String) (isComplete : Bool) (toParse : List Char)
    (st : TurnState) : Except String TurnState :=
  match jsonParseE (String.mk toParse) with
  | Except.error e => Except.error e
  | Except.ok parsedJson =>
    if jsTruthy (jsGetJson parsedJson "diagnosis") then
      let d : DiagnosisData := { thinking := thinking, fields := jsonFields parsedJson }
      let st := { st with diagnosisUI := some d }
      if isComplete then
        Except.ok { st with
          savedConversations := st.savedConversations ++ [d]
          savedMessages := st.savedMessages ++
            [("assistant",
              jsOrDefault (jsGetJson parsedJson "message")
                ("I identified a " ++ jsToString ((jsGetJson parsedJson "diagnosis").getD Json.null) ++ "."))] }
      else
        Except.ok st
    else
      Except.ok st

/-- Model of `processJson(jsonText, thinking, isComplete)` from
`startInitialDiagnosis` (`src/app/c/[id]/page.tsx` lines 396-434), in the
exception monad: clean the fragment, sniff the trade, repair, then run
the strict parse inside the source's `try`/`catch` — the `catch` turns a
parse exception into "keep the pre-`try` state". -/
def processJsonE (jsonText : List Char) (thinking : String) (isComplete : Bool)
    (st : TurnState) : Except String TurnState :=
  match parseAndAccept thinking isComplete (repairToParse isComplete (cleanFragment jsonText))
      (earlyTradeStep (cleanFragment jsonText) st) with
  | Except.ok st' => Except.ok st'
  | Except.error _ => Except.ok (earlyTradeStep (cleanFragment jsonText) st)

/-- Total form of `processJson` (exceptions cannot escape the `catch`). -/
def processJson (jsonText : List Char) (thinking : String) (isComplete : Bool)
    (st : TurnState) : TurnState :=
  match processJsonE jsonText thinking isComplete st with
  | Except.ok st' => st'
  | Except.error _ => st

/-! The per-snapshot pass of the initial-diagnosis stream loop
(`startInitialDiagnosis`, `src/app/c/[id]/page.tsx` lines 341-394). -/

/-- Loop-local accumulator of the read loop: the turn effects plus the
`currentThinking` local variable. -/
structure LoopState where
  st : TurnState
  currentThinking : String
deriving Repr

/-- Reasoning region of the buffer: primary thought-tag match with the
fenced fallback
(`fullText.match(/<(?:thought|thought_process)>...$/i) || fullText.match(/\x60\x60\x60thought...$/i)`). -/
def extractThoughtGroup (s : List Char) : Option (List Char) :=
  match matchAltTagRegion ["<thought>".data, "<thought_process>".data]
      ["</thought>".data, "</thought_process>".data] s with
  | some g => some g
  | none => matchFencedThought s

/-- Field lookup used when re-building `DiagnosisData` from a previous
value (`prev?.field || ""`). -/
def prevFieldOr (prev : Option DiagnosisData) (key : String) : String :=
  match prev with
  | none => ""
  | some d => jsOrDefault (jsGet d.fields key) ""

/-- The `setDiagnosis(prev => ({thinking: currentThinking, diagnosis:
prev?.diagnosis || "", ...}))` update of the thinking branch. -/
def thinkingUpdate (ct : String) (prev : Option DiagnosisData) : DiagnosisData :=
  { thinking := ct
    fields :=
      [("diagnosis", Json.str (prevFieldOr prev "diagnosis")),
       ("trade", Json.str (prevFieldOr prev "trade")),
       ("action_required", Json.str (prevFieldOr prev "action_required")),
       ("estimated_cost", Json.str (prevFieldOr prev "estimated_cost"))] }

/-- The thinking branch of one loop iteration: when a thought region is
found, set `currentThinking` to its trimmed text and merge it into the
diagnosis state. -/
def thoughtPass (fullText : List Char) (ls : LoopState) : LoopState :=
  match extractThoughtGroup fullText with
  | some g =>
    let ct := String.mk (jsTrim g)
    { st := { ls.st with diagnosisUI := some (thinkingUpdate ct ls.st.diagnosisUI) }
      currentThinking := ct }
  | none => ls

/-- One non-final iteration of the read loop on buffer `fullText`, in the
exception monad: extract thinking, then extract the JSON region (tagged,
else bare-brace fallback) and run `processJson` on it.  `isComplete` for
the tagged region is `fullText.toLowerCase().includes("</json>")`. -/
def snapshotStepE (fullText : List Char) (ls : LoopState) : Except String LoopState :=
  match matchTagRegion ("<json>".data) ("</json>".data) fullText with
  | some g =>
    (processJsonE g (thoughtPass fullText ls).currentThinking
        (containsCI ("</json>".data) fullText) (thoughtPass fullText ls).st).map
      (fun st => { thoughtPass fullText ls with st := st })
  | none =>
    match bareJsonMatch fullText with
    | some g =>
      (processJsonE g (thoughtPass fullText ls).currentThinking false
          (thoughtPass fullText ls).st).map
        (fun st => { thoughtPass fullText ls with st := st })
    | none => Except.ok (thoughtPass fullText ls)

/-- Total form of the per-snapshot pass. -/
def snapshotStep (fullText : List Char) (ls : LoopState) : LoopState :=
  match snapshotStepE fullText ls with
  | Except.ok ls' => ls'
  | Except.error _ => ls

/-- The strict-parse outcome at one snapshot: what `JSON.parse` is handed
and whether it succeeds (`.error` = no parsed object at this snapshot). -/
def snapshotParsed (fullText : List Char) : Except String Json :=
  match matchTagRegion ("<json>".data) ("</json>".data) fullText with
  | some g =>
    jsonParseE (String.mk (repairToParse (containsCI ("</json>".data) fullText) (cleanFragment g)))
  | none =>
    match bareJsonMatch fullText with
    | some g => jsonParseE (String.mk (repairToParse false (cleanFragment g)))
    | none => Except.error "no JSON region in buffer"

/-- Fold of the read loop over the non-final chunks: the buffer only
grows, and each grown snapshot is processed once. -/
def runChunks (chunks : List (List Char)) (acc : List Char) (ls : LoopState) :
    List Char × LoopState :=
  match chunks with
  | [] => (acc, ls)
  | c :: rest =>
    let full := acc ++ c
    runChunks rest full (snapshotStep full ls)

/-- Truthiness of `diagnosis?.diagnosis` for a component-state value. -/
def diagStateTruthy (d : Option DiagnosisData) : Bool :=
  match d with
  | none => false
  | some dd => jsTruthy (jsGet dd.fields "diagnosis")

/-- The `if (done)` branch of the read loop (lines 346-365): when the
`diagnosis` state captured by the callback's closure (`diagnosis0`, stale
for the whole turn under React's closure semantics, and `none` when the
initial-diagnosis effect fires) has no truthy `diagnosis`, run one final
extraction pass with `isComplete = true`, preferring the tagged region
and falling back to any bare JSON object. -/
def eofPass (fullText : List Char) (diagnosis0 : Option DiagnosisData) (ls : LoopState) :
    TurnState :=
  if !diagStateTruthy diagnosis0 then
    match matchTagRegion ("<json>".data) ("</json>".data) fullText with
    | some g => processJson g ls.currentThinking true ls.st
    | none =>
      match bareJsonMatch fullText with
      | some g => processJson g ls.currentThinking true ls.st
      | none => ls.st
  else ls.st

/-- One whole initial-diagnosis turn over a finite chunk stream followed
by transport EOF. -/
def runTurn (chunks : List (List Char)) (diagnosis0 : Option DiagnosisData) : TurnState :=
  let r := runChunks chunks [] { st := initTurnState, currentThinking := "" }
  eofPass r.1 diagnosis0 r.2

example :
    (runTurn ["<json>\x7b\"diagnosis\":\"Leak\"\x7d</json>".data, " x".data] none).savedConversations.length = 3 := by
  rfl

example :
    (runTurn ["<json>\x7b\"trade\":\"Plumber\"".data, ",\"a\":\"1\"".data, ",\"b\":\"2\"".data] none).searchCalls =
      ["Plumber"] := by
  rfl

/-! The follow-up turn (`handleSend` in `src/app/c/[id]/page.tsx`,
lines 485-612). -/

/-- Remove trailing JavaScript whitespace. -/
def dropTrailingWs (s : List Char) : List Char :=
  (s.reverse.dropWhile isJsWs).reverse

/-- Model of `fullText.match(/<thought>([\s\S]*?)(?:\s*<\/thought>|$)/i)`:
the lazy group stops at the earliest point from which optional whitespace
followed by the closing tag matches, so trailing whitespace before the
closing tag is excluded from the group. -/
def matchThoughtLazyWs (s : List Char) : Option (List Char) :=
  match findSubIdxCI ("<thought>".data) s with
  | none => none
  | some i =>
    let rest := s.drop (i + 9)
    match findSubIdxCI ("</thought>".data) rest with
    | none => some rest
    | some m => some (dropTrailingWs (rest.take m))

/-- Strict (in)equality operand model for `parsedJson.trade !== prevTrade`
(`none` is `undefined`; freshly parsed objects/arrays are never
reference-equal to previous ones). -/
def jsStrictEq : Option Json → Option Json → Bool
  | none, none => true
  | some (Json.str a), some (Json.str b) => a = b
  | some (Json.num a), some (Json.num b) => a = b
  | some (Json.bool a), some (Json.bool b) => a = b
  | some Json.null, some Json.null => true
  | _, _ => false

/-- Model of `userMsg.toLowerCase().match(/provider|contact|who/)`
truthiness. -/
def userAskedForProviders (userMsg : String) : Bool :=
  (findSubIdx ("provider".data) (lowerL userMsg.data)).isSome ||
  (findSubIdx ("contact".data) (lowerL userMsg.data)).isSome ||
  (findSubIdx ("who".data) (lowerL userMsg.data)).isSome

/-- String coercion where `undefined` renders as "undefined" (the `+`
concatenation fallback of `assistantContent`). -/
def jsToStringU (v : Option Json) : String :=
  match v with
  | none => "undefined"
  | some j => jsToString j

/-- Closure values captured by `handleSend` when the turn starts; React
state reads inside the loop (`diagnosis`, `providers`, `userMsg`) see
these for the whole turn. -/
structure FollowEnv where
  diagnosis0 : Option DiagnosisData
  providersCount : Nat
  userMsg : String

/-- Observable effects of a follow-up turn. -/
structure FollowTurnState where
  lastAssistantContent : String
  diagnosisUI : Option DiagnosisData
  savedMessages : List (String × String)
  searchCalls : List String
deriving Repr

/-- Loop accumulator of the follow-up read loop. -/
structure FollowLoopState where
  st : FollowTurnState
  currentThinking : String
deriving Repr

/-- Follow-up turn state at loop entry: an empty placeholder assistant
bubble, the conversation's current diagnosis, and no effects yet. -/
def initFollowState (env : FollowEnv) : FollowLoopState :=
  { st :=
      { lastAssistantContent := ""
        diagnosisUI := env.diagnosis0
        savedMessages := []
        searchCalls := [] }
    currentThinking := "" }

/-- One non-final iteration of the follow-up read loop (lines 543-606):
extract thinking (guarded by `thoughtMatch && thoughtMatch[1]`), then the
tagged JSON; on a parse with truthy `diagnosis`, update the bubble and
the diagnosis state, maybe launch the provider search, and persist the
assistant message once the closing tag is in the buffer. -/
def followSnapshotStep (env : FollowEnv) (fullText : List Char) (ls : FollowLoopState) :
    FollowLoopState :=
  let ls :=
    match matchThoughtLazyWs fullText with
    | some g =>
      if g ≠ [] then
        let ct := String.mk (jsTrim g)
        let upd : DiagnosisData :=
          match ls.st.diagnosisUI with
          | some d => { d with thinking := ct }
          | none =>
            { thinking := ct
              fields :=
                [("diagnosis", Json.str ""), ("trade", Json.str ""),
                 ("action_required", Json.str ""), ("estimated_cost", Json.str "")] }
        { st := { ls.st with diagnosisUI := some upd }, currentThinking := ct }
      else ls
    | none => ls
  match matchTagRegion ("<json>".data) ("</json>".data) fullText with
  | none => ls
  | some g =>
    let cleaned := cleanFragment g
    let toParse := repairToParse (containsCI ("</json>".data) fullText) cleaned
    match jsonParseE (String.mk toParse) with
    | Except.error _ => ls
    | Except.ok parsedJson =>
      if jsTruthy (jsGetJson parsedJson "diagnosis") then
        let assistantContent :=
          jsOrDefault (jsGetJson parsedJson "message")
            (jsToStringU (jsGetJson parsedJson "diagnosis") ++ "\n\n" ++
              jsToStringU (jsGetJson parsedJson "action_required"))
        let st := { ls.st with lastAssistantContent := assistantContent }
        let prevTrade := env.diagnosis0.bind (fun d => jsGet d.fields "trade")
        let st := { st with
          diagnosisUI := some { thinking := ls.currentThinking, fields := jsonFields parsedJson } }
        let tradeVal := jsGetJson parsedJson "trade"
        let st :=
          if jsTruthy tradeVal &&
              (!jsStrictEq tradeVal prevTrade || env.providersCount = 0 ||
                userAskedForProviders env.userMsg) then
            { st with searchCalls := st.searchCalls ++ [jsToString (tradeVal.getD Json.null)] }
          else st
        let st :=
          if containsCI ("</json>".data) fullText then
            { st with savedMessages := st.savedMessages ++ [("assistant", assistantContent)] }
          else st
        { ls with st := st }
      else ls

/-- Fold of the follow-up read loop over the non-final chunks (the `done`
branch only breaks: no final extraction pass in `handleSend`). -/
def runFollowChunks (env : FollowEnv) (chunks : List (List Char)) (acc : List Char)
    (ls : FollowLoopState) : FollowLoopState :=
  match chunks with
  | [] => ls
  | c :: rest =>
    let full := acc ++ c
    runFollowChunks env rest full (followSnapshotStep env full ls)

/-- One whole follow-up turn over a finite chunk stream. -/
def runFollowTurn (env : FollowEnv) (chunks : List (List Char)) : FollowTurnState :=
  (runFollowChunks env chunks [] (initFollowState env)).st

example :
    (runFollowTurn ⟨none, 0, "hi"⟩
      ["<json>\x7b\"diagnosis\":\"D\",\"trade\":\"Plumber\"\x7d".data, " ".data]).searchCalls =
      ["Plumber", "Plumber"] := by
  rfl

/-! Reasoning extractors of the two page variants (`src/app/c/[id]/page.tsx`
lines 368-381 and `src/app/chat/page.tsx` lines 397-418). -/

/-- The conversation-page reasoning extractor: the matched group,
trimmed, with no further processing. -/
def extractThinkingConv (fullText : List Char) : Option String :=
  (extractThoughtGroup fullText).map (fun g => String.mk (jsTrim g))

/-- Global case-insensitive removal of every occurrence of any of the
lowercased patterns, scanning left to right and resuming after each
removed match (model of `replace(/..../gi, '')`); `fuel` is the input
length. -/
def removeAllPats (fuel : Nat) (pats : List (List Char)) (s : List Char) : List Char :=
  match fuel, s with
  | 0, rest => rest
  | _, [] => []
  | f + 1, c :: t =>
    match pats.find? (fun p => p ≠ [] && startsWithL p (lowerL ((c :: t).take p.length))) with
    | some p => removeAllPats f pats ((c :: t).drop p.length)
    | none => c :: removeAllPats f pats t

/-- The alternatives of `/<\/?(?:thought|thought_process)>/gi`. -/
def thoughtMarkerPats : List (List Char) :=
  ["<thought>".data, "</thought>".data, "<thought_process>".data, "</thought_process>".data]

/-- The marker-stripping pipeline applied by the chat page to the
matched group: remove every thought-tag marker, then every
`\x60\x60\x60thought`, then every `\x60\x60\x60`. -/
def chatStripMarkers (g : List Char) : List Char :=
  let g1 := removeAllPats g.length thoughtMarkerPats g
  let g2 := removeAllPats g1.length [("```thought".data)] g1
  removeAllPats g2.length [("```".data)] g2

/-- The chat-page reasoning extractor: the matched group with every
stray thought-tag marker, `\x60\x60\x60thought` and `\x60\x60\x60`
removed, then trimmed. -/
def extractThinkingChat (fullText : List Char) : Option String :=
  (extractThoughtGroup fullText).map (fun g => String.mk (jsTrim (chatStripMarkers g)))

example :
    extractThinkingConv "<thought>abc</thought><json>\x7b\"diagnosis\":\"D\"\x7d</json>".data =
      some "abc" := by rfl

example :
    extractThinkingChat "<thought>a<thought>b</thought>".data = some "ab" := by rfl

example :
    extractThinkingConv "<thought>a<thought>b</thought>".data = some "a<thought>b" := by rfl

/-! The diagnosis-changed flag of the chat-page follow-up turn
(`src/app/chat/page.tsx` lines 734-739). -/

/-- The `clean` helper: `(s || '').trim().toLowerCase()` (its argument is
`string | undefined`). -/
def cleanJS (s : Option String) : String :=
  String.mk (lowerL (jsTrim (s.getD "").data))

/-- The `hasChanged` computation: the new parse differs from the previous
turn's diagnosis when either the `diagnosis` or the `trade` differs after
trimming and lowercasing both sides. -/
def hasChangedFlag (prevDiagnosis prevTrade newDiagnosis newTrade : Option String) : Bool :=
  (cleanJS prevDiagnosis != cleanJS newDiagnosis) ||
  (cleanJS prevTrade != cleanJS newTrade)

/-! The geolocation / geocode / provider-search side workflow
(`getCurrentLocation` and `fetchProviders`, `src/app/c/[id]/page.tsx`
lines 244-302). -/

/-- Conversation-level state touched by the side workflow. -/
structure LocationState where
  userLocation : Option (Int × Int × String)
  providers : List String
  isLoadingProviders : Bool
  toasts : List String
deriving Repr

/-- Model of `fetchProviders`: the outcome models the awaited fetch
(`.error` = network/parse throw, otherwise `res.ok` and the optional
`providers` payload); failures only log and leave the provider list
untouched. -/
def fetchProviders (outcome : Except Unit (Bool × Option (List String)))
    (st : LocationState) : LocationState :=
  let st := { st with isLoadingProviders := true }
  let st :=
    match outcome with
    | Except.ok (ok, provs) =>
      match ok, provs with
      | true, some ps => { st with providers := ps }
      | _, _ => st
    | Except.error _ => st
  { st with isLoadingProviders := false }

/-- Model of `getCurrentLocation`: on a geolocation fix, the geocode call
(whose rejection is caught into `{address: "Current Location"}`) and the
provider fetch run in parallel; `Promise.all` then resolves (neither
promise can reject) and the user location is set with
`geoData.address || "Current Location"`. A geolocation denial only
toasts. -/
def getCurrentLocation (geoPos : Except Unit (Int × Int))
    (geocodeOutcome : Except Unit (Option String))
    (provOutcome : Except Unit (Bool × Option (List String)))
    (st : LocationState) : LocationState :=
  match geoPos with
  | Except.error _ => { st with toasts := st.toasts ++ ["Location access denied"] }
  | Except.ok (lat, lng) =>
    let geoAddress : Option String :=
      match geocodeOutcome with
      | Except.error _ => some "Current Location"
      | Except.ok addr => addr
    let st := fetchProviders provOutcome st
    let address :=
      match geoAddress with
      | some a => if a ≠ "" then a else "Current Location"
      | none => "Current Location"
    { st with userLocation := some (lat, lng, address) }

/-! The chat-footer attachment workflow (`handleFilesChosen`,
`removeAttachment` and the attach button, `src/app/c/[id]/page.tsx`
lines 617-645 and 1186-1193). -/

/-- One asynchronous `FileReader.onload` insertion:
`setAttachments(prev => [...prev, url].slice(0, 5))` (the same cap is
applied whether compression succeeded or failed). -/
def appendAttachment (attachments : List String) (url : String) : List String :=
  (attachments ++ [url]).take 5

/-- The files admitted synchronously by `handleFilesChosen`: at most
`5 - attachments.length` of the chosen ones. -/
def chosenFiles (attachments : List String) (files : List String) : List String :=
  let slots : Int := 5 - (attachments.length : Int)
  if slots ≤ 0 then [] else files.take slots.toNat

/-- Model of `removeAttachment`:
`setAttachments(prev => prev.filter((_, i) => i !== index))`. -/
def removeAttachment (attachments : List String) (index : Nat) : List String :=
  attachments.eraseIdx index

/-- The attach button's `disabled` condition
(`isDisabled || attachments.length >= 5`). -/
def attachButtonDisabled (isDisabled : Bool) (attachments : List String) : Bool :=
  isDisabled || decide (5 ≤ attachments.length)

/-- Primitive transitions of the pending-attachment list: one completed
file insertion, or one removal. -/
inductive AttachStep : List String → List String → Prop
  | append (l : List String) (url : String) : AttachStep l (appendAttachment l url)
  | remove (l : List String) (index : Nat) : AttachStep l (removeAttachment l index)

/-! Helper lemmas. -/

/-- Erasing an index never lengthens a list. -/
theorem eraseIdx_length_le (l : List String) (i : Nat) : (l.eraseIdx i).length ≤ l.length := by
  induction l generalizing i with
  | nil => simp [List.eraseIdx]
  | cons a t ih =>
    cases i with
    | zero => simp [List.eraseIdx]
    | succ j =>
      simp only [List.eraseIdx, List.length_cons]
      exact Nat.succ_le_succ (ih j)

/-- Invariant tying the turn's `isSearchTriggered` flag to its
`getCurrentLocation` launches: before the trigger no launch has
happened, and there is never more than one launch. -/
def SearchInv (st : TurnState) : Prop :=
  (st.isSearchTriggered = false → st.searchCalls = []) ∧ st.searchCalls.length ≤ 1

/-- The sniffing step launches the search only when untriggered, and
sets the flag in the same step. -/
theorem earlyTradeStep_inv (cleaned : List Char) (st : TurnState) (h : SearchInv st) :
    SearchInv (earlyTradeStep cleaned st) := by
  unfold earlyTradeStep
  cases ht : st.isSearchTriggered with
  | true => simpa using h
  | false =>
    simp only [ht, Bool.not_false, if_true]
    cases hs : sniffTrade cleaned with
    | none => exact h
    | some v =>
      refine ⟨fun hf => by simp at hf, ?_⟩
      simp [h.1 ht]

/-- The parse-and-accept body never touches the search fields. -/
theorem parseAndAccept_search (thinking : String) (isComplete : Bool) (toParse : List Char)
    (st st' : TurnState) (h : parseAndAccept thinking isComplete toParse st = Except.ok st') :
    st'.searchCalls = st.searchCalls ∧ st'.isSearchTriggered = st.isSearchTriggered := by
  unfold parseAndAccept at h
  split at h
  · simp at h
  · split at h
    · split at h
      · simp only [Except.ok.injEq] at h
        subst h
        simp
      · simp only [Except.ok.injEq] at h
        subst h
        simp
    · simp only [Except.ok.injEq] at h
      subst h
      simp

/-- A successful `processJsonE` preserves the search invariant. -/
theorem processJsonE_inv (jsonText : List Char) (thinking : String) (isComplete : Bool)
    (st st' : TurnState) (h : processJsonE jsonText thinking isComplete st = Except.ok st')
    (hinv : SearchInv st) : SearchInv st' := by
  have hearly := earlyTradeStep_inv (cleanFragment jsonText) st hinv
  simp only [processJsonE] at h
  split at h
  · rename_i st1 hpa
    cases h
    obtain ⟨h1, h2⟩ := parseAndAccept_search _ _ _ _ _ hpa
    exact ⟨fun hf => by rw [h1]; exact hearly.1 (h2 ▸ hf), by rw [h1]; exact hearly.2⟩
  · cases h
    exact hearly

/-- The total form of `processJson` preserves the search invariant. -/
theorem processJson_inv (jsonText : List Char) (thinking : String) (isComplete : Bool)
    (st : TurnState) (hinv : SearchInv st) :
    SearchInv (processJson jsonText thinking isComplete st) := by
  unfold processJson
  cases hE : processJsonE jsonText thinking isComplete st with
  | error e => exact hinv
  | ok st' => exact processJsonE_inv _ _ _ _ _ hE hinv

/-- The thinking branch does not touch the search fields. -/
theorem thoughtPass_inv (full : List Char) (ls : LoopState) (h : SearchInv ls.st) :
    SearchInv (thoughtPass full ls).st := by
  unfold thoughtPass
  cases extractThoughtGroup full with
  | some g => exact h
  | none => exact h

/-- One snapshot of the read loop preserves the search invariant. -/
theorem snapshotStep_inv (full : List Char) (ls : LoopState) (h : SearchInv ls.st) :
    SearchInv (snapshotStep full ls).st := by
  have h1 : SearchInv (thoughtPass full ls).st := thoughtPass_inv full ls h
  unfold snapshotStep snapshotStepE
  cases hm : matchTagRegion ("<json>".data) ("</json>".data) full with
  | some g =>
    cases hP : processJsonE g (thoughtPass full ls).currentThinking
        (containsCI ("</json>".data) full) (thoughtPass full ls).st with
    | error e =>
      simp only [hP, Except.map]
      exact h
    | ok st' =>
      simp only [hP, Except.map]
      exact processJsonE_inv _ _ _ _ _ hP h1
  | none =>
    cases hb : bareJsonMatch full with
    | some g =>
      cases hP : processJsonE g (thoughtPass full ls).currentThinking false
          (thoughtPass full ls).st with
      | error e =>
        simp only [hb, hP, Except.map]
        exact h
      | ok st' =>
        simp only [hb, hP, Except.map]
        exact processJsonE_inv _ _ _ _ _ hP h1
    | none =>
      simp only [hb]
      exact h1

/-- The whole chunk fold preserves the search invariant. -/
theorem runChunks_inv (chunks : List (List Char)) :
    ∀ (acc : List Char) (ls : LoopState), SearchInv ls.st →
      SearchInv (runChunks chunks acc ls).2.st := by
  induction chunks with
  | nil => intro acc ls h; exact h
  | cons c rest ih =>
    intro acc ls h
    exact ih (acc ++ c) _ (snapshotStep_inv (acc ++ c) ls h)

/-- The EOF pass preserves the search invariant. -/
theorem eofPass_inv (fullText : List Char) (diagnosis0 : Option DiagnosisData)
    (ls : LoopState) (h : SearchInv ls.st) :
    SearchInv (eofPass fullText diagnosis0 ls) := by
  unfold eofPass
  split
  · cases matchTagRegion ("<json>".data) ("</json>".data) fullText with
    | some g => exact processJson_inv _ _ _ _ h
    | none =>
      cases bareJsonMatch fullText with
      | some g => exact processJson_inv _ _ _ _ h
      | none => exact h
  · exact h

/-- Every call of `processJsonE` returns `Except.ok`: the source's
`catch` converts the only throwing step (the strict parse) into keeping
the pre-`try` state. -/
theorem processJsonE_ok (jsonText : List Char) (thinking : String) (isComplete : Bool)
    (st : TurnState) :
    ∃ st', processJsonE jsonText thinking isComplete st = Except.ok st' := by
  simp only [processJsonE]
  cases hpa : parseAndAccept thinking isComplete (repairToParse isComplete (cleanFragment jsonText))
      (earlyTradeStep (cleanFragment jsonText) st) with
  | ok st' => exact ⟨st', rfl⟩
  | error e => exact ⟨_, rfl⟩

/-- The `lastIndexOf` model returns `none` exactly when the character is
absent. -/
theorem lastIdxOf_eq_none (c : Char) (s : List Char) : lastIdxOf c s = none ↔ c ∉ s := by
  induction s with
  | nil => simp [lastIdxOf]
  | cons a t ih =>
    simp only [lastIdxOf]
    cases h : lastIdxOf c t with
    | some i =>
      have hct : c ∈ t := by
        by_contra hc
        rw [← ih] at hc
        rw [h] at hc
        cases hc
      simp [hct]
    | none =>
      have hct : c ∉ t := ih.mp h
      by_cases hac : a = c
      · subst hac
        simp
      · rw [if_neg hac]
        constructor
        · intro _ hc
          rcases List.mem_cons.mp hc with hca | hct2
          · exact hac hca.symm
          · exact hct hct2
        · intro _
          rfl

/-- The `lastIndexOf` model returns the greatest index holding the
character. -/
theorem lastIdxOf_eq_some (c : Char) (s : List Char) (i : Nat)
    (h : lastIdxOf c s = some i) :
    s.get? i = some c ∧ ∀ m, i < m → s.get? m ≠ some c := by
  induction s generalizing i with
  | nil => cases h
  | cons a t ih =>
    simp only [lastIdxOf] at h
    cases ht : lastIdxOf c t with
    | some j =>
      rw [ht] at h
      simp only [Option.some.injEq] at h
      subst h
      obtain ⟨h1, h2⟩ := ih j ht
      constructor
      · simpa using h1
      · intro m hm
        cases m with
        | zero => omega
        | succ m' =>
          simp only [List.get?_cons_succ]
          exact h2 m' (by omega)
    | none =>
      rw [ht] at h
      by_cases hac : a = c
      · rw [if_pos hac] at h
        simp only [Option.some.injEq] at h
        subst h
        constructor
        · simp [hac]
        · intro m hm
          cases m with
          | zero => omega
          | succ m' =>
            simp only [List.get?_cons_succ]
            intro hc
            exact absurd (List.get?_mem hc) ((lastIdxOf_eq_none c t).mp ht)
      · rw [if_neg hac] at h
        cases h

/-! Claim theorems. -/

/-- C3: the per-snapshot extraction pass, run on any truncation of any
buffer, never lets an exception escape (the only throwing step, the
strict parse, sits inside the source's `try`/`catch`), and the parse
outcome at each snapshot is either "no parsed object yet" or a value the
strict parser accepted. -/
theorem extraction_pass_never_throws (full : List Char) (k : Nat) (ls : LoopState) :
    (∃ ls', snapshotStepE (full.take k) ls = Except.ok ls') ∧
    ((∃ e, snapshotParsed (full.take k) = Except.error e) ∨
      (∃ j, snapshotParsed (full.take k) = Except.ok j)) := by
  constructor
  · unfold snapshotStepE
    cases hm : matchTagRegion ("<json>".data) ("</json>".data) (full.take k) with
    | some g =>
      obtain ⟨st', hP⟩ := processJsonE_ok g (thoughtPass (full.take k) ls).currentThinking
        (containsCI ("</json>".data) (full.take k)) (thoughtPass (full.take k) ls).st
      exact ⟨{ thoughtPass (full.take k) ls with st := st' }, by simp only [hP, Except.map]⟩
    | none =>
      cases hb : bareJsonMatch (full.take k) with
      | some g =>
        obtain ⟨st', hP⟩ := processJsonE_ok g (thoughtPass (full.take k) ls).currentThinking
          false (thoughtPass (full.take k) ls).st
        exact ⟨{ thoughtPass (full.take k) ls with st := st' }, by simp only [hP, Except.map]⟩
      | none => exact ⟨thoughtPass (full.take k) ls, rfl⟩
  · cases hres : snapshotParsed (full.take k) with
    | error e => exact Or.inl ⟨e, rfl⟩
    | ok j => exact Or.inr ⟨j, rfl⟩

/-- C4: when the fragment is flagged incomplete and does not end with
`}`, the text handed to the strict parser is the cleaned fragment
truncated just after the last `}` it contains (the dropped tail holds no
`}`); with no `}` at all, the fragment is parsed unmodified. -/
theorem incomplete_fragment_repair (cleaned : List Char)
    (hNoBrace : endsWithL ['\x7d'] cleaned = false) :
    (('\x7d' ∈ cleaned) → ∃ i, lastIdxOf '\x7d' cleaned = some i ∧
        repairToParse false cleaned = cleaned.take (i + 1) ∧
        cleaned.get? i = some '\x7d' ∧
        ∀ m, i < m → cleaned.get? m ≠ some '\x7d') ∧
    (('\x7d' ∉ cleaned) → repairToParse false cleaned = cleaned) := by
  constructor
  · intro hmem
    cases hL : lastIdxOf '\x7d' cleaned with
    | none => exact absurd hmem ((lastIdxOf_eq_none _ _).mp hL)
    | some i =>
      obtain ⟨h1, h2⟩ := lastIdxOf_eq_some _ _ _ hL
      refine ⟨i, rfl, ?_, h1, h2⟩
      unfold repairToParse
      rw [hNoBrace]
      simp [hL]
  · intro hmem
    unfold repairToParse
    rw [hNoBrace, (lastIdxOf_eq_none _ _).mpr hmem]
    simp

/-- C4 witness: the incomplete fragment `{"a":"b"},"c` (no trailing
brace) is repaired to `{"a":"b"}`, the truncation just after its last
brace. -/
theorem incomplete_fragment_repair_witness :
    endsWithL ['\x7d'] ("\x7b\"a\":\"b\"\x7d,\"c".data) = false ∧
    ((('\x7d' ∈ ("\x7b\"a\":\"b\"\x7d,\"c".data)) →
        ∃ i, lastIdxOf '\x7d' ("\x7b\"a\":\"b\"\x7d,\"c".data) = some i ∧
          repairToParse false ("\x7b\"a\":\"b\"\x7d,\"c".data) =
            ("\x7b\"a\":\"b\"\x7d,\"c".data).take (i + 1) ∧
          ("\x7b\"a\":\"b\"\x7d,\"c".data).get? i = some '\x7d' ∧
          ∀ m, i < m → ("\x7b\"a\":\"b\"\x7d,\"c".data).get? m ≠ some '\x7d') ∧
      (('\x7d' ∉ ("\x7b\"a\":\"b\"\x7d,\"c".data)) →
        repairToParse false ("\x7b\"a\":\"b\"\x7d,\"c".data) = "\x7b\"a\":\"b\"\x7d,\"c".data)) :=
  ⟨by decide, incomplete_fragment_repair ("\x7b\"a\":\"b\"\x7d,\"c".data) (by decide)⟩

/-- C1: the claim asserts that on a stream containing a closing
`</json>` tag mid-buffer and then reaching transport EOF, the commit
action (`saveConversation` plus `saveMessage`) fires exactly once per
turn.  The code has no `committed` flag: it commits on every streamed
snapshot whose buffer already contains the closing tag, and a third time
in the EOF pass (the stale `!diagnosis?.diagnosis` closure check passes),
so on the two-chunk stream below it commits three times, not once. -/
theorem initial_turn_commits_three_times :
    (runTurn ["<json>\x7b\"diagnosis\":\"Leak\"\x7d</json>".data, " x".data]
        none).savedConversations.length = 3 ∧
    (runTurn ["<json>\x7b\"diagnosis\":\"Leak\"\x7d</json>".data, " x".data]
        none).savedMessages.length = 3 ∧
    (runTurn ["<json>\x7b\"diagnosis\":\"Leak\"\x7d</json>".data, " x".data]
        none).savedConversations.length ≠ 1 :=
  ⟨rfl, rfl, by decide⟩

/-- C2 counterexample: the claim quantifies over every turn, but a
follow-up turn (`handleSend`, `src/app/c/[id]/page.tsx` lines 593-597)
has no trigger guard: on a stream whose parsed object is visible in two
consecutive snapshots with an empty provider list, `getCurrentLocation`
is launched twice in the same turn — it is re-triggered by a later
snapshot after having already been triggered. -/
theorem followup_turn_retriggers_search :
    (runFollowTurn ⟨none, 0, "hi"⟩
        ["<json>\x7b\"diagnosis\":\"D\",\"trade\":\"Plumber\"\x7d".data, " ".data]).searchCalls =
      ["Plumber", "Plumber"] ∧
    (runFollowTurn ⟨none, 0, "hi"⟩
        ["<json>\x7b\"diagnosis\":\"D\",\"trade\":\"Plumber\"\x7d".data, " ".data]).searchCalls.length ≠ 1 :=
  ⟨rfl, by decide⟩

/-- C2 (amended to the initial-diagnosis turn): in `startInitialDiagnosis`
the `isSearchTriggered` flag makes the early-trigger workflow fire at
most once per turn over every chunk stream, and exactly once on the
synthetic stream whose `trade` field is sniffable in three consecutive
snapshots; follow-up turns lack this guard. -/
theorem initial_turn_search_at_most_once :
    (∀ (chunks : List (List Char)) (diagnosis0 : Option DiagnosisData),
      (runTurn chunks diagnosis0).searchCalls.length ≤ 1) ∧
    (runTurn ["<json>\x7b\"trade\":\"Plumber\"".data, ",\"a\":\"1\"".data, ",\"b\":\"2\"".data]
        none).searchCalls = ["Plumber"] := by
  constructor
  · intro chunks diagnosis0
    have hinit : SearchInv initTurnState := ⟨fun _ => rfl, by decide⟩
    have hfold := runChunks_inv chunks []
      { st := initTurnState, currentThinking := "" } hinit
    exact (eofPass_inv _ diagnosis0 _ hfold).2
  · rfl

/-- C5: a buffer with no tag markers still yields the parsed object via
the bare-brace greedy fallback (first `{` to last `}`), which is then
accepted as the current diagnosis (not committed, since no closing tag
was seen). -/
theorem bare_brace_fallback_extracts :
    bareJsonMatch "Some text \x7b\"diagnosis\":\"Crack\"\x7d trailing".data =
      some ("\x7b\"diagnosis\":\"Crack\"\x7d".data) ∧
    (snapshotStep "Some text \x7b\"diagnosis\":\"Crack\"\x7d trailing".data
        { st := initTurnState, currentThinking := "" }).st.diagnosisUI =
      some { thinking := "", fields := [("diagnosis", Json.str "Crack")] } ∧
    (snapshotStep "Some text \x7b\"diagnosis\":\"Crack\"\x7d trailing".data
        { st := initTurnState, currentThinking := "" }).st.savedConversations = [] :=
  ⟨rfl, rfl, rfl⟩

/-- C6 counterexample: the conversation-page reasoning extractor
(`src/app/c/[id]/page.tsx` lines 368-373) performs no marker stripping:
on a matched region containing a stray nested opening marker it returns
the region verbatim, with the residual `<thought>` marker still inside —
contradicting the claim that stray nested markers are always stripped
from the extracted reasoning text. -/
theorem conv_extractor_keeps_nested_marker :
    extractThinkingConv "<thought>a<thought>b</thought>".data = some "a<thought>b" ∧
    (findSubIdx ("<thought>".data) ("a<thought>b".data)).isSome = true :=
  ⟨rfl, rfl⟩

/-- Characters opening any of the stripped marker patterns. -/
def markerHeads : List Char := "<`".data

/-- A text segment that cannot open a marker pattern at any position. -/
def plainSeg (s : List Char) : Prop := ∀ ch ∈ s, ch.toLower ∉ markerHeads

instance : DecidablePred plainSeg :=
  fun s => List.decidableBAll (fun (ch : Char) => ch.toLower ∉ markerHeads) s

/-- Every thought-tag marker pattern opens with a marker head. -/
theorem thoughtMarkerPats_heads :
    ∀ p ∈ thoughtMarkerPats, ∃ c0 cs, p = c0 :: cs ∧ c0 ∈ markerHeads := by
  intro p hp
  simp only [thoughtMarkerPats, List.mem_cons, List.not_mem_nil, or_false] at hp
  rcases hp with rfl | rfl | rfl | rfl
  · exact ⟨'<', _, rfl, by decide⟩
  · exact ⟨'<', _, rfl, by decide⟩
  · exact ⟨'<', _, rfl, by decide⟩
  · exact ⟨'<', _, rfl, by decide⟩

/-- No marker pattern matches at a position whose character cannot open
one. -/
theorem find_none_of_plain_head (pats : List (List Char))
    (hpats : ∀ p ∈ pats, ∃ c0 cs, p = c0 :: cs ∧ c0 ∈ markerHeads)
    (c : Char) (t : List Char) (hc : c.toLower ∉ markerHeads) :
    pats.find? (fun p => p ≠ [] && startsWithL p (lowerL ((c :: t).take p.length))) = none := by
  rw [List.find?_eq_none]
  intro p hp hpred
  obtain ⟨c0, cs, rfl, hc0⟩ := hpats p hp
  simp only [List.length_cons, List.take_succ_cons, lowerL, List.map_cons, startsWithL,
    Bool.and_eq_true, decide_eq_true_eq] at hpred
  exact hc (hpred.2.1 ▸ hc0)

/-- On a segment with no marker-opening character, the global removal is
the identity (for every fuel value). -/
theorem removeAllPats_plain (pats : List (List Char))
    (hpats : ∀ p ∈ pats, ∃ c0 cs, p = c0 :: cs ∧ c0 ∈ markerHeads) :
    ∀ (fuel : Nat) (s : List Char), plainSeg s → removeAllPats fuel pats s = s := by
  intro fuel
  induction fuel with
  | zero => intro s _; cases s <;> rfl
  | succ f ih =>
    intro s hs
    cases s with
    | nil => rfl
    | cons c t =>
      have hfind := find_none_of_plain_head pats hpats c t (hs c (List.mem_cons_self c t))
      simp only [removeAllPats, hfind]
      rw [ih t (fun ch hch => hs ch (List.mem_cons_of_mem c hch))]

/-- The closing marker embedded between two plain segments is removed. -/
theorem removeAllPats_close (c2 : List Char) (hc : plainSeg c2) :
    ∀ (b : List Char), plainSeg b → ∀ (fuel : Nat), b.length + 10 + c2.length ≤ fuel →
      removeAllPats fuel thoughtMarkerPats (b ++ ("</thought>".data) ++ c2) = b ++ c2 := by
  intro b
  induction b with
  | nil =>
    intro _ fuel hfuel
    cases fuel with
    | zero => omega
    | succ f =>
      rw [show (([] : List Char) ++ ("</thought>".data) ++ c2) =
        '<' :: ("/thought>".data ++ c2) from rfl]
      have hfind : thoughtMarkerPats.find?
          (fun p => p ≠ [] && startsWithL p (lowerL (('<' :: ("/thought>".data ++ c2)).take p.length))) =
          some ("</thought>".data) := rfl
      simp only [removeAllPats, hfind]
      rw [show ('<' :: ("/thought>".data ++ c2)).drop (("</thought>".data : List Char).length) =
        ("</thought>".data ++ c2).drop (("</thought>".data : List Char).length) from rfl]
      rw [List.drop_left]
      simpa using removeAllPats_plain thoughtMarkerPats thoughtMarkerPats_heads f c2 hc
  | cons ch t ih =>
    intro hb fuel hfuel
    cases fuel with
    | zero => simp at hfuel
    | succ f =>
      have hfind := find_none_of_plain_head thoughtMarkerPats thoughtMarkerPats_heads ch
        (t ++ ("</thought>".data) ++ c2) (hb ch (List.mem_cons_self ch t))
      rw [show ((ch :: t) ++ ("</thought>".data) ++ c2) =
        ch :: (t ++ ("</thought>".data) ++ c2) from by simp]
      simp only [removeAllPats, hfind]
      rw [ih (fun x hx => hb x (List.mem_cons_of_mem ch hx)) f (by simp at hfuel ⊢; omega)]
      simp

/-- A stray nested opening marker followed by a closing marker between
plain segments: both markers are removed by the global pass. -/
theorem removeAllPats_strip_markers (b c2 : List Char) (hb : plainSeg b) (hc : plainSeg c2) :
    ∀ (a : List Char), plainSeg a → ∀ (fuel : Nat),
      a.length + 9 + b.length + 10 + c2.length ≤ fuel →
      removeAllPats fuel thoughtMarkerPats
        (a ++ ("<thought>".data) ++ b ++ ("</thought>".data) ++ c2) = a ++ b ++ c2 := by
  intro a
  induction a with
  | nil =>
    intro _ fuel hfuel
    cases fuel with
    | zero => omega
    | succ f =>
      rw [show (([] : List Char) ++ ("<thought>".data) ++ b ++ ("</thought>".data) ++ c2) =
        '<' :: ("thought>".data ++ (b ++ ("</thought>".data) ++ c2)) from by simp]
      have hfind : thoughtMarkerPats.find?
          (fun p => p ≠ [] &&
            startsWithL p (lowerL (('<' :: ("thought>".data ++ (b ++ ("</thought>".data) ++ c2))).take p.length))) =
          some ("<thought>".data) := rfl
      simp only [removeAllPats, hfind]
      rw [show ('<' :: ("thought>".data ++ (b ++ ("</thought>".data) ++ c2))).drop
            (("<thought>".data : List Char).length) =
          ("<thought>".data ++ (b ++ ("</thought>".data) ++ c2)).drop
            (("<thought>".data : List Char).length) from rfl]
      rw [List.drop_left]
      simpa using removeAllPats_close c2 hc b hb f (by simp at hfuel ⊢; omega)
  | cons ch t ih =>
    intro ha fuel hfuel
    cases fuel with
    | zero => simp at hfuel
    | succ f =>
      have hfind := find_none_of_plain_head thoughtMarkerPats thoughtMarkerPats_heads ch
        (t ++ ("<thought>".data) ++ b ++ ("</thought>".data) ++ c2)
        (ha ch (List.mem_cons_self ch t))
      rw [show ((ch :: t) ++ ("<thought>".data) ++ b ++ ("</thought>".data) ++ c2) =
        ch :: (t ++ ("<thought>".data) ++ b ++ ("</thought>".data) ++ c2) from by simp]
      simp only [removeAllPats, hfind]
      rw [ih (fun x hx => ha x (List.mem_cons_of_mem ch hx)) f (by simp at hfuel ⊢; omega)]
      simp

/-- C6 (amended): both reasoning extractors return exactly "abc" on the
round-trip input; the chat-page extractor strips stray nested
thought-tag markers from the matched region (shown concretely and for
every plain-text surrounding segment), while the conversation-page
extractor returns the matched region with nested markers intact. -/
theorem reasoning_extraction_roundtrip (a b c2 : List Char)
    (ha : plainSeg a) (hb : plainSeg b) (hc : plainSeg c2) :
    extractThinkingChat "<thought>abc</thought><json>\x7b\"diagnosis\":\"D\"\x7d</json>".data =
      some "abc" ∧
    extractThinkingConv "<thought>abc</thought><json>\x7b\"diagnosis\":\"D\"\x7d</json>".data =
      some "abc" ∧
    extractThinkingChat "<thought>a<thought>b</thought>".data = some "ab" ∧
    removeAllPats (a ++ ("<thought>".data) ++ b ++ ("</thought>".data) ++ c2).length
        thoughtMarkerPats (a ++ ("<thought>".data) ++ b ++ ("</thought>".data) ++ c2) =
      a ++ b ++ c2 := by
  refine ⟨rfl, rfl, rfl, ?_⟩
  exact removeAllPats_strip_markers b c2 hb hc a ha _ (by simp [List.length_append]; omega)

/-- C6 amended-claim witness: concrete plain segments around a nested
marker pair. -/
theorem reasoning_extraction_roundtrip_witness :
    (plainSeg ("x".data) ∧ plainSeg ("y".data) ∧ plainSeg ("z".data)) ∧
    removeAllPats (("x".data : List Char) ++ ("<thought>".data) ++ "y".data ++
        ("</thought>".data) ++ "z".data).length thoughtMarkerPats
        (("x".data : List Char) ++ ("<thought>".data) ++ "y".data ++
          ("</thought>".data) ++ "z".data) =
      ("x".data : List Char) ++ "y".data ++ "z".data :=
  ⟨⟨by decide, by decide, by decide⟩,
    (reasoning_extraction_roundtrip ("x".data) ("y".data) ("z".data)
      (by decide) (by decide) (by decide)).2.2.2⟩

/-- C7: `hasChanged` compares the previous and newly parsed
diagnosis/trade after `(s || '').trim().toLowerCase()` on both sides:
with the diagnosis unchanged (equal after cleaning), a trade change from
"Plumber" to "plumber" yields `false` and to "Electrician" yields
`true`. -/
theorem diagnosis_changed_flag (prevDiagnosis newDiagnosis : Option String)
    (h : cleanJS prevDiagnosis = cleanJS newDiagnosis) :
    hasChangedFlag prevDiagnosis (some "Plumber") newDiagnosis (some "plumber") = false ∧
    hasChangedFlag prevDiagnosis (some "Plumber") newDiagnosis (some "Electrician") = true := by
  unfold hasChangedFlag
  rw [h]
  simp only [bne_self_eq_false, Bool.false_or]
  constructor <;> decide

/-- C7 witness: concrete previous diagnosis "Leak" and new diagnosis
" leak " agree after cleaning; the flag behaves as claimed. -/
theorem diagnosis_changed_flag_witness :
    cleanJS (some "Leak") = cleanJS (some " leak ") ∧
    (hasChangedFlag (some "Leak") (some "Plumber") (some " leak ") (some "plumber") = false ∧
      hasChangedFlag (some "Leak") (some "Plumber") (some " leak ") (some "Electrician") = true) :=
  ⟨by decide, diagnosis_changed_flag (some "Leak") (some " leak ") (by decide)⟩

/-- C9: when the geocode call rejects (caught into the placeholder
object) or resolves without an address, the user location is recorded
with the geolocated coordinates and the placeholder address
"Current Location", and the provider search still applies its own
outcome, unaffected by the geocode failure. -/
theorem geocode_failure_fallback (lat lng : Int)
    (geocodeOutcome : Except Unit (Option String))
    (provOutcome : Except Unit (Bool × Option (List String))) (st : LocationState)
    (h : geocodeOutcome = Except.error () ∨ geocodeOutcome = Except.ok none) :
    (getCurrentLocation (Except.ok (lat, lng)) geocodeOutcome provOutcome st).userLocation =
      some (lat, lng, "Current Location") ∧
    (getCurrentLocation (Except.ok (lat, lng)) geocodeOutcome provOutcome st).providers =
      (fetchProviders provOutcome st).providers := by
  rcases h with h | h <;> subst h <;>
    simp [getCurrentLocation]

/-- C9 witness: geocode rejection with a successful provider fetch. -/
theorem geocode_failure_fallback_witness :
    ((Except.error () : Except Unit (Option String)) = Except.error () ∨
      (Except.error () : Except Unit (Option String)) = Except.ok none) ∧
    ((getCurrentLocation (Except.ok ((3 : Int), (4 : Int))) (Except.error ())
        (Except.ok (true, some ["Ace Plumbing"])) ⟨none, [], false, []⟩).userLocation =
      some (3, 4, "Current Location") ∧
    (getCurrentLocation (Except.ok ((3 : Int), (4 : Int))) (Except.error ())
        (Except.ok (true, some ["Ace Plumbing"])) ⟨none, [], false, []⟩).providers =
      (fetchProviders (Except.ok (true, some ["Ace Plumbing"])) ⟨none, [], false, []⟩).providers) :=
  ⟨Or.inl rfl,
    geocode_failure_fallback 3 4 (Except.error ()) (Except.ok (true, some ["Ace Plumbing"]))
      ⟨none, [], false, []⟩ (Or.inl rfl)⟩

/-- The sniffing step touches none of the acceptance/persistence
fields. -/
theorem earlyTradeStep_keeps (cleaned : List Char) (st : TurnState) :
    (earlyTradeStep cleaned st).diagnosisUI = st.diagnosisUI ∧
    (earlyTradeStep cleaned st).savedConversations = st.savedConversations ∧
    (earlyTradeStep cleaned st).savedMessages = st.savedMessages := by
  unfold earlyTradeStep
  split
  · cases sniffTrade cleaned <;> simp
  · simp

/-- A parse exception makes `parseAndAccept` propagate it. -/
theorem parseAndAccept_error (thinking : String) (isComplete : Bool) (toParse : List Char)
    (st : TurnState) (e : String) (h : jsonParseE (String.mk toParse) = Except.error e) :
    parseAndAccept thinking isComplete toParse st = Except.error e := by
  unfold parseAndAccept
  rw [h]

/-- A parsed value without truthy `diagnosis` leaves the state as is. -/
theorem parseAndAccept_not_truthy (thinking : String) (isComplete : Bool) (toParse : List Char)
    (st : TurnState) (j : Json) (h : jsonParseE (String.mk toParse) = Except.ok j)
    (hj : jsTruthy (jsGetJson j "diagnosis") = false) :
    parseAndAccept thinking isComplete toParse st = Except.ok st := by
  unfold parseAndAccept
  rw [h]
  simp [hj]

/-- On a parse exception, `processJson` returns the pre-`try` state. -/
theorem processJson_parse_error (jsonText : List Char) (thinking : String) (isComplete : Bool)
    (st : TurnState) (e : String)
    (h : jsonParseE (String.mk (repairToParse isComplete (cleanFragment jsonText))) =
      Except.error e) :
    processJson jsonText thinking isComplete st = earlyTradeStep (cleanFragment jsonText) st := by
  unfold processJson processJsonE
  rw [parseAndAccept_error thinking isComplete (repairToParse isComplete (cleanFragment jsonText))
    (earlyTradeStep (cleanFragment jsonText) st) e h]

/-- On a parsed value without truthy `diagnosis`, `processJson` keeps the
state (up to the sniffing step). -/
theorem processJson_not_truthy (jsonText : List Char) (thinking : String) (isComplete : Bool)
    (st : TurnState) (j : Json)
    (h : jsonParseE (String.mk (repairToParse isComplete (cleanFragment jsonText))) =
      Except.ok j)
    (hj : jsTruthy (jsGetJson j "diagnosis") = false) :
    processJson jsonText thinking isComplete st = earlyTradeStep (cleanFragment jsonText) st := by
  unfold processJson processJsonE
  rw [parseAndAccept_not_truthy thinking isComplete (repairToParse isComplete (cleanFragment jsonText))
    (earlyTradeStep (cleanFragment jsonText) st) j h hj]

/-- C8: the turn controller replaces the current diagnosis with a parsed
object, or persists it, only when the parse succeeded and the object's
`diagnosis` field is truthy — for the record shape (a string field) that
means a non-empty string; a parsed object whose `diagnosis` is missing
or the empty string leaves the diagnosis state and both persistence logs
untouched. -/
theorem diagnosis_gate (jsonText : List Char) (thinking : String) (isComplete : Bool)
    (st : TurnState) :
    ((processJson jsonText thinking isComplete st).diagnosisUI ≠ st.diagnosisUI ∨
      (processJson jsonText thinking isComplete st).savedConversations ≠ st.savedConversations →
      ∃ j, jsonParseE (String.mk (repairToParse isComplete (cleanFragment jsonText))) =
          Except.ok j ∧
        jsTruthy (jsGetJson j "diagnosis") = true ∧
        ∀ s, jsGetJson j "diagnosis" = some (Json.str s) → s ≠ "") ∧
    (∀ j, jsonParseE (String.mk (repairToParse isComplete (cleanFragment jsonText))) =
        Except.ok j →
      jsGetJson j "diagnosis" = none ∨ jsGetJson j "diagnosis" = some (Json.str "") →
      (processJson jsonText thinking isComplete st).diagnosisUI = st.diagnosisUI ∧
      (processJson jsonText thinking isComplete st).savedConversations = st.savedConversations ∧
      (processJson jsonText thinking isComplete st).savedMessages = st.savedMessages) := by
  have hkeep := earlyTradeStep_keeps (cleanFragment jsonText) st
  cases hp : jsonParseE (String.mk (repairToParse isComplete (cleanFragment jsonText))) with
  | error e =>
    rw [processJson_parse_error jsonText thinking isComplete st e hp]
    constructor
    · intro hne
      exfalso
      rcases hne with hne | hne
      · exact hne hkeep.1
      · exact hne hkeep.2.1
    · intro j hj
      exact Except.noConfusion hj
  | ok j =>
    cases hj : jsTruthy (jsGetJson j "diagnosis") with
    | false =>
      rw [processJson_not_truthy jsonText thinking isComplete st j hp hj]
      constructor
      · intro hne
        exfalso
        rcases hne with hne | hne
        · exact hne hkeep.1
        · exact hne hkeep.2.1
      · intro j' hj' hd
        exact ⟨hkeep.1, hkeep.2.1, hkeep.2.2⟩
    | true =>
      constructor
      · intro _
        refine ⟨j, rfl, hj, ?_⟩
        intro s hs hempty
        subst hempty
        rw [hs] at hj
        simp [jsTruthy] at hj
      · intro j' hj' hd
        exfalso
        injection hj' with hj''
        subst hj''
        rcases hd with hd | hd <;> rw [hd] at hj <;> simp [jsTruthy] at hj

/-- C8 witness: the complete fragment `{"diagnosis":"Leak"}` is accepted
(the diagnosis state changes away from `none`), and its parsed object has
the non-empty string diagnosis "Leak". -/
theorem diagnosis_gate_witness :
    ((processJson ("\x7b\"diagnosis\":\"Leak\"\x7d".data) "" false initTurnState).diagnosisUI ≠
        initTurnState.diagnosisUI ∨
      (processJson ("\x7b\"diagnosis\":\"Leak\"\x7d".data) "" false
          initTurnState).savedConversations ≠ initTurnState.savedConversations) ∧
    (∃ j, jsonParseE (String.mk (repairToParse false
        (cleanFragment ("\x7b\"diagnosis\":\"Leak\"\x7d".data)))) = Except.ok j ∧
      jsTruthy (jsGetJson j "diagnosis") = true ∧
      ∀ s, jsGetJson j "diagnosis" = some (Json.str s) → s ≠ "") :=
  ⟨Or.inl (fun h => Option.noConfusion h),
    (diagnosis_gate ("\x7b\"diagnosis\":\"Leak\"\x7d".data) "" false initTurnState).1
      (Or.inl (fun h => Option.noConfusion h))⟩

/-- C10: the pending-attachment list never exceeds 5 under any sequence
of completed insertions and removals; `handleFilesChosen` admits at most
`5 - attachments.length` of the chosen files; and the attach button is
disabled once 5 attachments are present. -/
theorem attachments_capped_at_five :
    (∀ (l l' : List String), Relation.ReflTransGen AttachStep l l' →
      l.length ≤ 5 → l'.length ≤ 5) ∧
    (∀ (attachments files : List String), attachments.length ≤ 5 →
      (chosenFiles attachments files).length ≤ 5 - attachments.length) ∧
    (∀ (isDisabled : Bool) (attachments : List String), attachments.length = 5 →
      attachButtonDisabled isDisabled attachments = true) := by
  refine ⟨?_, ?_, ?_⟩
  · intro l l' h h5
    induction h with
    | refl => exact h5
    | tail _ step ih =>
      cases step with
      | append url =>
        simp only [appendAttachment, List.length_take]
        exact Nat.min_le_left _ _
      | remove index =>
        exact le_trans (eraseIdx_length_le _ index) ih
  · intro attachments files h
    unfold chosenFiles
    by_cases hs : (5 - (attachments.length : Int)) ≤ 0
    · simp [hs]
    · simp only [hs, if_false, List.length_take]
      omega
  · intro isDisabled attachments h
    simp [attachButtonDisabled, h]

/-- C10 witness: from a full list of five attachments, one more
completed insertion still leaves at most five. -/
theorem attachments_capped_witness :
    (["a", "b", "c", "d", "e"] : List String).length ≤ 5 ∧
    (appendAttachment ["a", "b", "c", "d", "e"] "f").length ≤ 5 :=
  ⟨by decide,
    attachments_capped_at_five.1 ["a", "b", "c", "d", "e"] _
      (Relation.ReflTransGen.single (AttachStep.append ["a", "b", "c", "d", "e"] "f"))
      (by decide)⟩

end HomeServices
